import Mathlib

/-
Verification development for the rust-n-body repository.

The repository contains three quadtree implementations:
  * src/rust-n-body/src/quadtree.rs  (Quadrant, BHTree, SubQuadrants, Node)
  * src/rust-n-body/src/bhtree.rs    (Quad, Quadtree, Node, SubQuads)
  * src/rust-n-body/src/idktree.rs   (Quad, Quadtree, TreeNode, Subquad, calc_accel)

f32 values are modelled as elements of a linear ordered field: exact rationals
(ℚ) for the purely algebraic insertion/geometry layer, and real numbers (ℝ)
for the force kernels, which use square roots (Vec2::length, normalize).
Entities (bevy Entity) are modelled as natural numbers compared by equality,
exactly as the Rust compares them.
-/

/-- Components of a 2D vector (bevy/glam Vec2), over an arbitrary scalar type. -/
structure Vec2 (α : Type) where
  x : α
  y : α
deriving DecidableEq, Repr

/-- Components of a 3D vector (bevy/glam Vec3), over the reals. -/
structure Vec3 where
  x : ℝ
  y : ℝ
  z : ℝ

section VecOps

variable {α : Type} [LinearOrderedField α]

instance : Add (Vec2 α) := ⟨fun a b => ⟨a.x + b.x, a.y + b.y⟩⟩

instance : Sub (Vec2 α) := ⟨fun a b => ⟨a.x - b.x, a.y - b.y⟩⟩

instance : SMul α (Vec2 α) := ⟨fun c v => ⟨c * v.x, c * v.y⟩⟩

instance : Zero (Vec2 α) := ⟨⟨0, 0⟩⟩

instance : Sub Vec3 := ⟨fun a b => ⟨a.x - b.x, a.y - b.y, a.z - b.z⟩⟩

instance : SMul ℝ Vec3 := ⟨fun c v => ⟨c * v.x, c * v.y, c * v.z⟩⟩

instance : Zero Vec3 := ⟨⟨0, 0, 0⟩⟩

end VecOps

/-- Corner of a quadrant (quadtree.rs lines 8-14; same enum in bhtree.rs lines 126-131). -/
inductive Corner where
  | NW
  | NE
  | SW
  | SE
deriving DecidableEq, Repr

section QuadrantDefs

variable {α : Type} [LinearOrderedField α]

/-- Quadrant (quadtree.rs lines 17-20): an axis-aligned square with a center and
a full side length `len`. -/
structure Quadrant (α : Type) where
  center : Vec2 α
  len : α
deriving DecidableEq, Repr

/-- Quadrant::new (quadtree.rs lines 26-28): stores the given center and length
unchanged, with no validation of the sign of `length`. -/
def Quadrant.new (center : Vec2 α) (length : α) : Quadrant α :=
  ⟨center, length⟩

/-- Quadrant::contains (quadtree.rs lines 31-37): closed (inclusive) comparisons
on all four sides. The f32 comparisons are exact order comparisons on the
modelled scalars. -/
def Quadrant.contains (q : Quadrant α) (pos : Vec2 α) : Prop :=
  pos.x ≥ q.center.x - q.len / 2 ∧ pos.x ≤ q.center.x + q.len / 2 ∧
  pos.y ≥ q.center.y - q.len / 2 ∧ pos.y ≤ q.center.y + q.len / 2

instance (q : Quadrant α) (pos : Vec2 α) : Decidable (q.contains pos) :=
  inferInstanceAs (Decidable (_ ∧ _ ∧ _ ∧ _))

/-- Quadrant::subquad (quadtree.rs lines 40-49): each child has half the side
length and its center displaced by a quarter side length toward the corner. -/
def Quadrant.subquad (q : Quadrant α) (corner : Corner) : Quadrant α :=
  match corner with
  | .NW => Quadrant.new ⟨q.center.x - q.len / 2 / 2, q.center.y + q.len / 2 / 2⟩ (q.len / 2)
  | .NE => Quadrant.new ⟨q.center.x + q.len / 2 / 2, q.center.y + q.len / 2 / 2⟩ (q.len / 2)
  | .SW => Quadrant.new ⟨q.center.x - q.len / 2 / 2, q.center.y - q.len / 2 / 2⟩ (q.len / 2)
  | .SE => Quadrant.new ⟨q.center.x + q.len / 2 / 2, q.center.y - q.len / 2 / 2⟩ (q.len / 2)

/-- A point strictly inside a quadrant: both coordinates strictly within half a
side length of the center. This is the "strictly inside the parent" notion used
by the specification (spec.md section 8) when stating the exactly-one-child
property; it is not a function of the Rust source. -/
def Quadrant.strictlyInside (q : Quadrant α) (pos : Vec2 α) : Prop :=
  |pos.x - q.center.x| < q.len / 2 ∧ |pos.y - q.center.y| < q.len / 2

instance (q : Quadrant α) (pos : Vec2 α) : Decidable (q.strictlyInside pos) :=
  inferInstanceAs (Decidable (_ ∧ _))

end QuadrantDefs

/-- MIN_QUADRANT_LENGTH (quadtree.rs line 4): 0.5, exactly representable in f32. -/
def MIN_QUADRANT_LENGTH {α : Type} [LinearOrderedField α] : α := 1 / 2

/-- THETA_THRESHOLD (quadtree.rs line 5): 0.5. Lives in ℝ (used only by the
force query, which needs real square roots), hence not executable. -/
noncomputable def THETA_THRESHOLD : ℝ := 1 / 2

/-- The quadtree.rs tree shape. The Rust type is
`BHTree { quad: Quadrant, node: Option<Node> }` with
`Node { pos: Vec2, mass: f32, item: NodeItem }` and
`NodeItem::Internal(SubQuadrants { nw, ne, sw, se: Box<BHTree> }) | NodeItem::External(Entity)`
(quadtree.rs lines 68-98, 165-170). Flattened here:
  * `empty q`                          -- node = None
  * `external q pos mass entity`      -- Some(Node { pos, mass, External(entity) })
  * `internal q pos mass nw ne sw se` -- Some(Node { pos, mass, Internal(subquads) }). -/
inductive BHTree (α : Type) where
  | empty : Quadrant α → BHTree α
  | external : Quadrant α → Vec2 α → α → ℕ → BHTree α
  | internal : Quadrant α → Vec2 α → α → BHTree α → BHTree α → BHTree α → BHTree α → BHTree α
deriving DecidableEq, Repr

section TreeDefs

variable {α : Type} [LinearOrderedField α] [FloorRing α]

/-- The quadrant stored at the root of a (sub)tree (field `quad` of BHTree). -/
def BHTree.quad : BHTree α → Quadrant α
  | .empty q => q
  | .external q _ _ _ => q
  | .internal q _ _ _ _ _ _ => q

/-- BHTree::new (quadtree.rs lines 102-104): a tree with a root quadrant and no node. -/
def BHTree.new (q : Quadrant α) : BHTree α := .empty q

/-- The position update of Node::add (quadtree.rs lines 87-91):
`pos = (pos * mass + other_pos * other_mass) / (mass + other_mass)`,
componentwise, the new total mass being `mass + other_mass`. -/
def Node.addPos (pos : Vec2 α) (mass : α) (otherPos : Vec2 α) (otherMass : α) : Vec2 α :=
  ⟨(pos.x * mass + otherPos.x * otherMass) / (mass + otherMass),
   (pos.y * mass + otherPos.y * otherMass) / (mass + otherMass)⟩

/-- SubQuadrants (quadtree.rs lines 165-170): the four child trees of an
internal node. -/
structure SubQuadrants (α : Type) where
  nw : BHTree α
  ne : BHTree α
  sw : BHTree α
  se : BHTree α
deriving DecidableEq

/-- SubQuadrants::new (quadtree.rs lines 173-180): four empty trees over the
four subquadrants of the parent quadrant. -/
def SubQuadrants.new (parentQuad : Quadrant α) : SubQuadrants α :=
  ⟨.empty (parentQuad.subquad .NW), .empty (parentQuad.subquad .NE),
   .empty (parentQuad.subquad .SW), .empty (parentQuad.subquad .SE)⟩

/-- SubQuadrants::insert (quadtree.rs lines 182-203), parametrised by the
recursive insert `ins` applied to the chosen child. If the position is
contained in none of the four child quadrants, a warning is printed and the
body is dropped (lines 183-193: the SubQuadrants are returned unchanged);
otherwise the first child (in NW, NE, SW, SE order) whose quadrant contains
the position receives the insert (lines 194-202). -/
def SubQuadrants.insertWith (ins : BHTree α → BHTree α) (s : SubQuadrants α)
    (pos : Vec2 α) : SubQuadrants α :=
  if ¬ s.nw.quad.contains pos ∧ ¬ s.ne.quad.contains pos ∧
     ¬ s.sw.quad.contains pos ∧ ¬ s.se.quad.contains pos then
    s
  else if s.nw.quad.contains pos then { s with nw := ins s.nw }
  else if s.ne.quad.contains pos then { s with ne := ins s.ne }
  else if s.sw.quad.contains pos then { s with sw := ins s.sw }
  else if s.se.quad.contains pos then { s with se := ins s.se }
  else s

/-- Number of halvings, counted via a ceiling: an upper-bound measure for how
often a side length can be halved before the `len > MIN_QUADRANT_LENGTH` guard
(quadtree.rs line 116) fails. Used only to size the recursion fuel of the
insert embedding. -/
def hceil (x : α) : ℕ := (Int.ceil (2 * x)).toNat

/-- Fuel bound for BHTree::insert on a given tree: enough recursion budget for
the subdivision cascade (bounded by `hceil` of the side length, i.e. by the
minimum-quadrant-size guard) plus the depth of the existing tree. -/
def BHTree.treeBound : BHTree α → ℕ
  | .empty _ => 1
  | .external q _ _ _ => hceil q.len + 1
  | .internal _ _ _ nw ne sw se =>
      max (max nw.treeBound ne.treeBound) (max sw.treeBound se.treeBound) + 1

/-- BHTree::insert (quadtree.rs lines 107-131), with explicit recursion fuel
(the Rust recursion is bounded by the minimum-quadrant-size guard; the fuel is
sized by `treeBound` and theorem `c8_insert_fuel_bounded` proves it is never
exhausted). Cases:
  * node = None (lines 128-130): become an External node holding the body.
  * External existing node (lines 115-126): if `quad.len > MIN_QUADRANT_LENGTH`
    subdivide: create fresh SubQuadrants, insert the existing entity — passing
    `body`, i.e. the NEW body, whose mass is `m` (line 120: `subquads.insert(
    *existing_entity, body, current_node.pos)`) — then insert the new body
    (line 121), and become Internal; in both branches finish with
    `current_node.add(position, body.mass)` (line 125).
  * Internal node (lines 111-114): insert into the SubQuadrants, then
    `current_node.add(position, body.mass)`. -/
def BHTree.insertFuel : ℕ → BHTree α → ℕ → α → Vec2 α → BHTree α
  | 0, t, _, _, _ => t
  | n + 1, t, entity, m, pos =>
    match t with
    | .empty q => .external q pos m entity
    | .external q npos nmass e0 =>
      if MIN_QUADRANT_LENGTH < q.len then
        let s0 := SubQuadrants.new q
        let s1 := SubQuadrants.insertWith (fun c => BHTree.insertFuel n c e0 m npos) s0 npos
        let s2 := SubQuadrants.insertWith (fun c => BHTree.insertFuel n c entity m pos) s1 pos
        .internal q (Node.addPos npos nmass pos m) (nmass + m) s2.nw s2.ne s2.sw s2.se
      else
        .external q (Node.addPos npos nmass pos m) (nmass + m) e0
    | .internal q npos nmass nw ne sw se =>
      let s2 := SubQuadrants.insertWith (fun c => BHTree.insertFuel n c entity m pos)
        ⟨nw, ne, sw, se⟩ pos
      .internal q (Node.addPos npos nmass pos m) (nmass + m) s2.nw s2.ne s2.sw s2.se

/-- BHTree::insert (quadtree.rs lines 107-131): the fueled recursion run with
its sufficient fuel bound. -/
def BHTree.insert (t : BHTree α) (entity : ℕ) (m : α) (pos : Vec2 α) : BHTree α :=
  BHTree.insertFuel (t.treeBound + 1) t entity m pos

/-- Folding a list of bodies (entity, mass, position) into a tree by repeated
BHTree::insert, as the per-step build loop in main.rs does for its tree. -/
def BHTree.insertList (t : BHTree α) (bodies : List (ℕ × α × Vec2 α)) : BHTree α :=
  bodies.foldl (fun acc b => acc.insert b.1 b.2.1 b.2.2) t

/-- Whether the tree's root has a node (`node != None` in quadtree.rs). -/
def BHTree.hasNode : BHTree α → Prop
  | .empty _ => False
  | .external _ _ _ _ => True
  | .internal _ _ _ _ _ _ _ => True

/-- The aggregated mass stored at the root node (0 for an absent node). -/
def BHTree.rootMass : BHTree α → α
  | .empty _ => 0
  | .external _ _ m _ => m
  | .internal _ _ m _ _ _ _ => m

/-- The aggregated center-of-mass position stored at the root node
(the zero vector for an absent node, which stores no position). -/
def BHTree.rootCom : BHTree α → Vec2 α
  | .empty _ => 0
  | .external _ p _ _ => p
  | .internal _ p _ _ _ _ _ => p

/-- Total mass of a body list (the specification's `sum(B.mass)`). -/
def massSum (bodies : List (ℕ × α × Vec2 α)) : α :=
  (bodies.map fun b => b.2.1).sum

/-- Mass-weighted position sum of a body list: the numerator of the
specification's mass-weighted mean position. -/
def weightedSum (bodies : List (ℕ × α × Vec2 α)) : Vec2 α :=
  (bodies.map fun b => b.2.1 • b.2.2).sum

/-- SubQuadrants::insert (quadtree.rs lines 182-203) as a standalone function:
`insertWith` applied to the full BHTree::insert on the chosen child. -/
def SubQuadrants.insert (s : SubQuadrants α) (entity : ℕ) (m : α) (pos : Vec2 α) :
    SubQuadrants α :=
  SubQuadrants.insertWith (fun c => c.insert entity m pos) s pos

end TreeDefs

/-
The force-query layer of quadtree.rs (lines 133-162) and the idktree.rs force
kernel use Vec2::length / Vec2::distance / normalize, i.e. real square roots,
so this layer is embedded over ℝ and is not executable.
-/

/-- Vec2::length_squared (glam): x*x + y*y. -/
def Vec2.lengthSq (v : Vec2 ℝ) : ℝ := v.x * v.x + v.y * v.y

/-- Vec2::length (glam): the square root of length_squared. -/
noncomputable def Vec2.length (v : Vec2 ℝ) : ℝ := Real.sqrt v.lengthSq

/-- Vec2::distance (glam): the length of the difference. -/
noncomputable def Vec2.distance (a b : Vec2 ℝ) : ℝ := (a - b).length

/-- Vec2::normalize_or_zero (glam): the unit vector in the direction of `v`,
or zero when `v` is the zero vector (the only non-finite-normalization case for
real-valued inputs). -/
noncomputable def Vec2.normalizeOrZero (v : Vec2 ℝ) : Vec2 ℝ :=
  if v = 0 then 0 else (1 / v.length) • v

/-- BHTree::approximate_force (quadtree.rs lines 157-162): for a node with
aggregate position `npos` and aggregate mass `nmass`, and a query body at `pos`
of mass `mass`:
  dir       = node.pos - pos
  dist_sq   = dir.length_squared().max(1.0)
  force_mag = (mass * node.mass) / dist_sq
  result    = dir.normalize_or_zero() * force_mag. -/
noncomputable def approximateForce (npos : Vec2 ℝ) (nmass : ℝ) (pos : Vec2 ℝ)
    (mass : ℝ) : Vec2 ℝ :=
  let dir := npos - pos
  let distSq := max dir.lengthSq 1
  let forceMag := mass * nmass / distSq
  forceMag • dir.normalizeOrZero

/-- BHTree::compute_force (quadtree.rs lines 133-155) together with
SubQuadrants::compute_force (lines 205-210). The Internal-node opening test is
`self.quad.len / distance < THETA_THRESHOLD` on f32: when `distance = 0` the
f32 quotient is +inf for a positive numerator (comparison false) or NaN for a
zero numerator (comparison false) or -inf for a negative numerator (comparison
true), so the test is modelled as
`(0 < d ∧ len / d < θ) ∨ (d = 0 ∧ len < 0)`; for `d > 0` this is the exact
real-valued comparison of the source. -/
noncomputable def BHTree.computeForce : BHTree ℝ → ℕ → ℝ → Vec2 ℝ → Vec2 ℝ
  | .empty _, _, _, _ => 0
  | .external _ npos nmass e0, entity, mass, pos =>
    if e0 ≠ entity then approximateForce npos nmass pos mass else 0
  | .internal q npos nmass nw ne sw se, entity, mass, pos =>
    let d := npos.distance pos
    if (0 < d ∧ q.len / d < THETA_THRESHOLD) ∨ (d = 0 ∧ q.len < 0) then
      approximateForce npos nmass pos mass
    else
      nw.computeForce entity mass pos + ne.computeForce entity mass pos +
      sw.computeForce entity mass pos + se.computeForce entity mass pos

/-
bhtree.rs geometry (Quad, lines 45-86) and the panicking dispatch of
Node::subdivide_and_insert (lines 96-105).
-/

/-- Quad (bhtree.rs lines 45-48): center and full side length `size`. -/
structure QuadB (α : Type) where
  center : Vec2 α
  size : α
deriving DecidableEq, Repr

section QuadBDefs

variable {α : Type} [LinearOrderedField α]

/-- Quad::subquad (bhtree.rs lines 71-80): children with half the side length,
centers displaced by a quarter side length toward the corner. -/
def QuadB.subquad (q : QuadB α) (c : Corner) : QuadB α :=
  match c with
  | .NW => ⟨⟨q.center.x - q.size / 2 / 2, q.center.y + q.size / 2 / 2⟩, q.size / 2⟩
  | .NE => ⟨⟨q.center.x + q.size / 2 / 2, q.center.y + q.size / 2 / 2⟩, q.size / 2⟩
  | .SW => ⟨⟨q.center.x - q.size / 2 / 2, q.center.y - q.size / 2 / 2⟩, q.size / 2⟩
  | .SE => ⟨⟨q.center.x + q.size / 2 / 2, q.center.y - q.size / 2 / 2⟩, q.size / 2⟩

/-- Quad::contains (bhtree.rs lines 82-85): half-open comparisons, inclusive on
the lower bound and strict on the upper bound of both axes. -/
def QuadB.contains (q : QuadB α) (x y : α) : Prop :=
  x ≥ q.center.x - q.size / 2 ∧ x < q.center.x + q.size / 2 ∧
  y ≥ q.center.y - q.size / 2 ∧ y < q.center.y + q.size / 2

instance (q : QuadB α) (x y : α) : Decidable (q.contains x y) :=
  inferInstanceAs (Decidable (_ ∧ _ ∧ _ ∧ _))

/-- A point strictly inside a bhtree.rs Quad (both coordinates strictly within
half a side length of the center); the specification's notion, as for
`Quadrant.strictlyInside`. -/
def QuadB.strictlyInside (q : QuadB α) (x y : α) : Prop :=
  |x - q.center.x| < q.size / 2 ∧ |y - q.center.y| < q.size / 2

instance (q : QuadB α) (x y : α) : Decidable (q.strictlyInside x y) :=
  inferInstanceAs (Decidable (_ ∧ _))

/-- Node::subdivide_and_insert (bhtree.rs lines 96-105), as invoked by
Quadtree::insert (lines 26-27) on a freshly created `SubQuads::new(&self.quad)`
(lines 116-123), so the four examined child quads `subs.nw.node.quad`, ... are
exactly `q.subquad` of each corner. The guards are tried in NW, NE, SW, SE
order; the value records which child receives the body, and `none` models the
`panic!` branch (line 103) taken when no child quad contains the position. -/
def subdivideAndInsertChoice (q : QuadB α) (x y : α) : Option Corner :=
  if (q.subquad .NW).contains x y then some .NW
  else if (q.subquad .NE).contains x y then some .NE
  else if (q.subquad .SW).contains x y then some .SW
  else if (q.subquad .SE).contains x y then some .SE
  else none

end QuadBDefs

/-
idktree.rs: the Quad constructors (lines 324-367) and the force kernel
calc_accel (lines 213-218). This is the implementation main.rs actually runs.
-/

section QuadIDefs

variable {α : Type} [LinearOrderedField α]

/-- Quad (idktree.rs lines 324-328): center and full side length `size`. -/
structure QuadI (α : Type) where
  center : Vec2 α
  size : α
deriving DecidableEq, Repr

/-- The exact value of f32::MAX, which is (2^24 - 1) * 2^104. -/
def f32MAX : α := 340282346638528859811704183484516925440

/-- The exact value of f32::MIN: -f32::MAX. -/
def f32MIN : α := -f32MAX

/-- Quad::new (idktree.rs lines 331-336): stores the given center and size
unchanged, with no validation of the sign of `size`. -/
def QuadI.new (x y size : α) : QuadI α := ⟨⟨x, y⟩, size⟩

/-- Quad::new_containing (idktree.rs lines 338-355): folds min/max over the
positions starting from (f32::MAX, f32::MAX, f32::MIN, f32::MIN), then centers
on the bounding-box midpoint with size the larger bounding-box extent. No
validation: a single (or empty) position list yields a non-positive size. -/
def QuadI.new_containing (positions : List (Vec2 α)) : QuadI α :=
  let bounds := positions.foldl
    (fun acc p => (min acc.1 p.x, min acc.2.1 p.y, max acc.2.2.1 p.x, max acc.2.2.2 p.y))
    (f32MAX, f32MAX, f32MIN, f32MIN)
  let minX := bounds.1
  let minY := bounds.2.1
  let maxX := bounds.2.2.1
  let maxY := bounds.2.2.2
  ⟨⟨(minX + maxX) * (1 / 2), (minY + maxY) * (1 / 2)⟩, max (maxX - minX) (maxY - minY)⟩

end QuadIDefs

/-- Vec3 length_squared (glam): x*x + y*y + z*z. -/
def Vec3.lengthSq (v : Vec3) : ℝ := v.x * v.x + v.y * v.y + v.z * v.z

/-- Vec3::length (glam): the square root of length_squared. -/
noncomputable def Vec3.length (v : Vec3) : ℝ := Real.sqrt v.lengthSq

/-- Vec3::normalize (glam): v * (1/length). Unlike normalize_or_zero there is
no zero guard: for the zero vector the f32 result has NaN components; this
real-valued model is only faithful for nonzero vectors, and the zero-magnitude
case is tracked separately by `calcAccelChecked`. -/
noncomputable def Vec3.normalize (v : Vec3) : Vec3 := (1 / v.length) • v

/-- calc_accel (idktree.rs lines 213-218):
  r   = t2 - t1
  mag = r.length()
  result = g * (m2 / mag) * r.normalize() * dt
scalar factors collected in front of the vector (real multiplication is
associative and commutative, so this equals the source's left-to-right
products). -/
noncomputable def calcAccel (m2 : ℝ) (t1 t2 : Vec3) (dt g : ℝ) : Vec3 :=
  let r := t2 - t1
  let mag := r.length
  (g * (m2 / mag) * dt) • r.normalize

/-- calc_accel (idktree.rs lines 213-218) instrumented for finiteness: `none`
exactly when the magnitude divisor `mag = r.length()` is zero, in which case
the f32 source divides by zero (`m2 / mag`) and normalizes the zero vector,
producing Inf/NaN components instead of a finite vector. -/
noncomputable def calcAccelChecked (m2 : ℝ) (t1 t2 : Vec3) (dt g : ℝ) : Option Vec3 :=
  if (t2 - t1).length = 0 then none else some (calcAccel m2 t1 t2 dt g)

/-
Theorems. First, component-level lemmas for the vector operations, then the
supporting lemmas for each claim, then the claim theorems themselves.
-/

section VecExtLemmas

variable {α : Type}

theorem Vec2.ext2 {a b : Vec2 α} (hx : a.x = b.x) (hy : a.y = b.y) : a = b := by
  cases a; cases b; cases hx; cases hy; rfl

theorem Vec2.eq_iff {a b : Vec2 α} : a = b ↔ a.x = b.x ∧ a.y = b.y := by
  constructor
  · intro h; exact ⟨by rw [h], by rw [h]⟩
  · intro h; exact Vec2.ext2 h.1 h.2

end VecExtLemmas

section VecLemmas

variable {α : Type} [LinearOrderedField α]

@[simp] theorem Vec2.add_x (a b : Vec2 α) : (a + b).x = a.x + b.x := rfl

@[simp] theorem Vec2.add_y (a b : Vec2 α) : (a + b).y = a.y + b.y := rfl

@[simp] theorem Vec2.sub_x (a b : Vec2 α) : (a - b).x = a.x - b.x := rfl

@[simp] theorem Vec2.sub_y (a b : Vec2 α) : (a - b).y = a.y - b.y := rfl

@[simp] theorem Vec2.smul_x (c : α) (v : Vec2 α) : (c • v).x = c * v.x := rfl

@[simp] theorem Vec2.smul_y (c : α) (v : Vec2 α) : (c • v).y = c * v.y := rfl

@[simp] theorem Vec2.zero_x : (0 : Vec2 α).x = 0 := rfl

@[simp] theorem Vec2.zero_y : (0 : Vec2 α).y = 0 := rfl

@[simp] theorem Vec3.sub_x3 (a b : Vec3) : (a - b).x = a.x - b.x := rfl

@[simp] theorem Vec3.sub_y3 (a b : Vec3) : (a - b).y = a.y - b.y := rfl

@[simp] theorem Vec3.sub_z (a b : Vec3) : (a - b).z = a.z - b.z := rfl

@[simp] theorem Vec3.smul_x3 (c : ℝ) (v : Vec3) : (c • v).x = c * v.x := rfl

@[simp] theorem Vec3.smul_y3 (c : ℝ) (v : Vec3) : (c • v).y = c * v.y := rfl

@[simp] theorem Vec3.smul_z (c : ℝ) (v : Vec3) : (c • v).z = c * v.z := rfl

@[simp] theorem Vec3.zero_x3 : (0 : Vec3).x = 0 := rfl

@[simp] theorem Vec3.zero_y3 : (0 : Vec3).y = 0 := rfl

@[simp] theorem Vec3.zero_z : (0 : Vec3).z = 0 := rfl

end VecLemmas

theorem Vec3.ext3 {a b : Vec3} (hx : a.x = b.x) (hy : a.y = b.y) (hz : a.z = b.z) :
    a = b := by
  cases a; cases b; cases hx; cases hy; cases hz; rfl

theorem Vec3.eq_iff3 {a b : Vec3} : a = b ↔ a.x = b.x ∧ a.y = b.y ∧ a.z = b.z := by
  constructor
  · intro h; exact ⟨by rw [h], by rw [h], by rw [h]⟩
  · intro h; exact Vec3.ext3 h.1 h.2.1 h.2.2

theorem Vec3.smul_smul (c d : ℝ) (v : Vec3) : c • d • v = (c * d) • v := by
  refine Vec3.ext3 ?_ ?_ ?_ <;> simp [mul_assoc]

/-
Root-aggregate behaviour of BHTree::insert: every insert into a tree with a
node ends in `current_node.add(position, body.mass)` (quadtree.rs lines 113,
125), whatever happened below.
-/

section InsertLemmas

variable {α : Type} [LinearOrderedField α] [FloorRing α]

theorem BHTree.insert_empty (q : Quadrant α) (e : ℕ) (m : α) (p : Vec2 α) :
    (BHTree.empty q).insert e m p = .external q p m e := by
  simp [BHTree.insert, BHTree.insertFuel]

omit [FloorRing α] in
theorem BHTree.insertFuel_hasNode (n : ℕ) (t : BHTree α) (e : ℕ) (m : α) (p : Vec2 α)
    (h : 1 ≤ n) : (BHTree.insertFuel n t e m p).hasNode := by
  obtain ⟨n', rfl⟩ : ∃ n', n = n' + 1 := ⟨n - 1, by omega⟩
  cases t with
  | empty q => simp [BHTree.insertFuel, BHTree.hasNode]
  | external q np nm e0 =>
    simp only [BHTree.insertFuel]
    split_ifs <;> simp [BHTree.hasNode]
  | internal q np nm nw ne sw se => simp [BHTree.insertFuel, BHTree.hasNode]

theorem BHTree.insert_hasNode (t : BHTree α) (e : ℕ) (m : α) (p : Vec2 α) :
    (t.insert e m p).hasNode :=
  BHTree.insertFuel_hasNode _ t e m p (by omega)

theorem BHTree.insert_rootMass (t : BHTree α) (e : ℕ) (m : α) (p : Vec2 α)
    (h : t.hasNode) : (t.insert e m p).rootMass = t.rootMass + m := by
  cases t with
  | empty q => exact absurd h (by simp [BHTree.hasNode])
  | external q np nm e0 =>
    simp only [BHTree.insert, BHTree.insertFuel]
    split_ifs <;> simp [BHTree.rootMass]
  | internal q np nm nw ne sw se =>
    simp [BHTree.insert, BHTree.insertFuel, BHTree.rootMass]

theorem BHTree.insert_rootCom (t : BHTree α) (e : ℕ) (m : α) (p : Vec2 α)
    (h : t.hasNode) : (t.insert e m p).rootCom = Node.addPos t.rootCom t.rootMass p m := by
  cases t with
  | empty q => exact absurd h (by simp [BHTree.hasNode])
  | external q np nm e0 =>
    simp only [BHTree.insert, BHTree.insertFuel]
    split_ifs <;> simp [BHTree.rootCom, BHTree.rootMass]
  | internal q np nm nw ne sw se =>
    simp [BHTree.insert, BHTree.insertFuel, BHTree.rootCom, BHTree.rootMass]

omit [FloorRing α] in
theorem massSum_cons (b : ℕ × α × Vec2 α) (bs : List (ℕ × α × Vec2 α)) :
    massSum (b :: bs) = b.2.1 + massSum bs := by
  simp [massSum]

omit [FloorRing α] in
theorem weightedSum_cons (b : ℕ × α × Vec2 α) (bs : List (ℕ × α × Vec2 α)) :
    weightedSum (b :: bs) = b.2.1 • b.2.2 + weightedSum bs := by
  simp [weightedSum]

omit [FloorRing α] in
theorem Vec2.sum_x (l : List (Vec2 α)) : l.sum.x = (l.map Vec2.x).sum := by
  induction l with
  | nil => rfl
  | cons v l ih => simp [List.sum_cons, ih]

omit [FloorRing α] in
theorem Vec2.sum_y (l : List (Vec2 α)) : l.sum.y = (l.map Vec2.y).sum := by
  induction l with
  | nil => rfl
  | cons v l ih => simp [List.sum_cons, ih]

omit [FloorRing α] in
theorem massSum_nonneg (bs : List (ℕ × α × Vec2 α)) (h : ∀ b ∈ bs, 0 < b.2.1) :
    0 ≤ massSum bs := by
  induction bs with
  | nil => simp [massSum]
  | cons b bs ih =>
    rw [massSum_cons]
    have hb := h b (by simp)
    have := ih (fun b hb => h b (by simp [hb]))
    linarith

/-- The aggregate fold across a list of inserts: for a tree whose root node
exists with positive mass, the root mass accumulates the inserted masses and
the root center of mass accumulates the mass-weighted positions. -/
theorem BHTree.insertList_aggregates (bs : List (ℕ × α × Vec2 α)) :
    ∀ t : BHTree α, t.hasNode → 0 < t.rootMass → (∀ b ∈ bs, 0 < b.2.1) →
      (t.insertList bs).rootMass = t.rootMass + massSum bs ∧
      (t.insertList bs).rootCom =
        (1 / (t.rootMass + massSum bs)) •
          (t.rootMass • t.rootCom + weightedSum bs) := by
  induction bs with
  | nil =>
    intro t hn hm _
    refine ⟨by simp [BHTree.insertList, massSum], ?_⟩
    simp only [BHTree.insertList, List.foldl_nil, massSum, List.map_nil, List.sum_nil,
      weightedSum, add_zero]
    refine (Vec2.ext2 ?_ ?_).symm <;> · simp; field_simp
  | cons b bs ih =>
    intro t hn hm hpos
    have hb : 0 < b.2.1 := hpos b (by simp)
    have hrest : ∀ x ∈ bs, 0 < x.2.1 := fun x hx => hpos x (by simp [hx])
    have hstep : BHTree.insertList t (b :: bs) =
        BHTree.insertList (t.insert b.1 b.2.1 b.2.2) bs := by
      simp [BHTree.insertList]
    have hn' := BHTree.insert_hasNode t b.1 b.2.1 b.2.2
    have hM' : (t.insert b.1 b.2.1 b.2.2).rootMass = t.rootMass + b.2.1 :=
      BHTree.insert_rootMass t b.1 b.2.1 b.2.2 hn
    have hC' : (t.insert b.1 b.2.1 b.2.2).rootCom = Node.addPos t.rootCom t.rootMass b.2.2 b.2.1 :=
      BHTree.insert_rootCom t b.1 b.2.1 b.2.2 hn
    have hM'pos : 0 < (t.insert b.1 b.2.1 b.2.2).rootMass := by rw [hM']; linarith
    obtain ⟨ihM, ihC⟩ := ih (t.insert b.1 b.2.1 b.2.2) hn' hM'pos hrest
    constructor
    · rw [hstep, ihM, hM', massSum_cons]; ring
    · rw [hstep, ihC, hM', hC', massSum_cons, weightedSum_cons]
      have hMb : t.rootMass + b.2.1 ≠ 0 := by linarith
      refine Vec2.ext2 ?_ ?_ <;>
      · simp [Node.addPos]
        field_simp
        ring

end InsertLemmas

/-
Fuel sufficiency: the recursion of BHTree::insert is insensitive to any fuel
at or above `treeBound`, whose external-node component `hceil q.len + 1` is
exactly the halving budget granted by the `len > MIN_QUADRANT_LENGTH` guard
(quadtree.rs line 116).
-/

section FuelLemmas

variable {α : Type} [LinearOrderedField α] [FloorRing α]

theorem hceil_pos {x : α} (hx : 0 < x) : 1 ≤ hceil x := by
  have h : 0 < Int.ceil (2 * x) := Int.ceil_pos.mpr (by linarith)
  unfold hceil
  omega

theorem hceil_half_lt {x : α} (hx : 1 / 2 < x) : hceil (x / 2) < hceil x := by
  have h2 : (2 : α) * (x / 2) = x := by ring
  have hxpos : (0 : α) < x := lt_trans (by norm_num) hx
  have hab : Int.ceil x < Int.ceil (2 * x) := by
    rw [Int.lt_ceil]
    have hlt : ((Int.ceil x : ℤ) : α) < x + 1 := Int.ceil_lt_add_one x
    rcases le_or_lt (Int.ceil x) 1 with h1 | h1
    · have hc : ((Int.ceil x : ℤ) : α) ≤ 1 := by exact_mod_cast h1
      linarith
    · have hc : (2 : α) ≤ ((Int.ceil x : ℤ) : α) := by exact_mod_cast h1
      linarith
  have h0 : 0 < Int.ceil x := Int.ceil_pos.mpr hxpos
  unfold hceil
  rw [h2]
  omega

theorem BHTree.treeBound_pos (t : BHTree α) : 1 ≤ t.treeBound := by
  cases t <;> simp [BHTree.treeBound]

omit [FloorRing α] in
theorem BHTree.insertFuel_emptyT (n : ℕ) (q : Quadrant α) (e : ℕ) (m : α) (p : Vec2 α)
    (h : 1 ≤ n) : BHTree.insertFuel n (BHTree.empty q) e m p = .external q p m e := by
  obtain ⟨n', rfl⟩ : ∃ n', n = n' + 1 := ⟨n - 1, by omega⟩
  simp [BHTree.insertFuel]

omit [FloorRing α] in
theorem SubQuadrants.insertWith_congr {f g : BHTree α → BHTree α} (s : SubQuadrants α)
    (p : Vec2 α) (h1 : f s.nw = g s.nw) (h2 : f s.ne = g s.ne) (h3 : f s.sw = g s.sw)
    (h4 : f s.se = g s.se) :
    SubQuadrants.insertWith f s p = SubQuadrants.insertWith g s p := by
  unfold SubQuadrants.insertWith
  split_ifs <;> simp [h1, h2, h3, h4]

theorem SubQuadrants.seedBound (q : Quadrant α) (n' : ℕ) (e0 : ℕ) (m : α) (p0 : Vec2 α)
    (hn : 1 ≤ n') :
    (SubQuadrants.insertWith (fun c => BHTree.insertFuel n' c e0 m p0)
      (SubQuadrants.new q) p0).nw.treeBound ≤ hceil (q.len / 2) + 1 ∧
    (SubQuadrants.insertWith (fun c => BHTree.insertFuel n' c e0 m p0)
      (SubQuadrants.new q) p0).ne.treeBound ≤ hceil (q.len / 2) + 1 ∧
    (SubQuadrants.insertWith (fun c => BHTree.insertFuel n' c e0 m p0)
      (SubQuadrants.new q) p0).sw.treeBound ≤ hceil (q.len / 2) + 1 ∧
    (SubQuadrants.insertWith (fun c => BHTree.insertFuel n' c e0 m p0)
      (SubQuadrants.new q) p0).se.treeBound ≤ hceil (q.len / 2) + 1 := by
  have hE : ∀ (q' : Quadrant α) (e' : ℕ) (m' : α) (p' : Vec2 α),
      BHTree.insertFuel n' (BHTree.empty q') e' m' p' = .external q' p' m' e' :=
    fun q' e' m' p' => BHTree.insertFuel_emptyT n' q' e' m' p' hn
  unfold SubQuadrants.insertWith SubQuadrants.new
  split_ifs <;>
    simp [hE, BHTree.treeBound, Quadrant.subquad, Quadrant.new]

theorem BHTree.insertFuel_stable (n : ℕ) :
    ∀ (t : BHTree α) (e : ℕ) (m : α) (p : Vec2 α), t.treeBound ≤ n →
      BHTree.insertFuel n t e m p = BHTree.insertFuel t.treeBound t e m p := by
  induction n using Nat.strong_induction_on with
  | _ n ih =>
    intro t e m p hle
    cases t with
    | empty q =>
      have h1 : 1 ≤ n := le_trans (by simp [BHTree.treeBound]) hle
      obtain ⟨n', rfl⟩ : ∃ n', n = n' + 1 := ⟨n - 1, by omega⟩
      simp [BHTree.treeBound, BHTree.insertFuel]
    | external q np nm e0 =>
      have h1 : hceil q.len + 1 ≤ n := le_trans (le_of_eq rfl) hle
      obtain ⟨n', rfl⟩ : ∃ n', n = n' + 1 := ⟨n - 1, by omega⟩
      have hn' : hceil q.len ≤ n' := by omega
      show BHTree.insertFuel (n' + 1) (BHTree.external q np nm e0) e m p =
        BHTree.insertFuel (hceil q.len + 1) (BHTree.external q np nm e0) e m p
      by_cases hq : (MIN_QUADRANT_LENGTH : α) < q.len
      · have hqhalf : (1 : α) / 2 < q.len := by
          simpa [MIN_QUADRANT_LENGTH] using hq
        have hpos : 1 ≤ hceil q.len := hceil_pos (by linarith)
        have hhalf : hceil (q.len / 2) < hceil q.len := hceil_half_lt hqhalf
        simp only [BHTree.insertFuel]
        rw [if_pos hq, if_pos hq]
        have hE1 : ∀ (q' : Quadrant α) (e' : ℕ) (m' : α) (p' : Vec2 α),
            BHTree.insertFuel n' (BHTree.empty q') e' m' p' = .external q' p' m' e' :=
          fun q' e' m' p' => BHTree.insertFuel_emptyT n' q' e' m' p' (by omega)
        have hE2 : ∀ (q' : Quadrant α) (e' : ℕ) (m' : α) (p' : Vec2 α),
            BHTree.insertFuel (hceil q.len) (BHTree.empty q') e' m' p' =
              .external q' p' m' e' :=
          fun q' e' m' p' => BHTree.insertFuel_emptyT (hceil q.len) q' e' m' p' hpos
        have hs1 : SubQuadrants.insertWith (fun c => BHTree.insertFuel n' c e0 m np)
            (SubQuadrants.new q) np =
            SubQuadrants.insertWith (fun c => BHTree.insertFuel (hceil q.len) c e0 m np)
            (SubQuadrants.new q) np := by
          refine SubQuadrants.insertWith_congr _ _ ?_ ?_ ?_ ?_ <;>
            simp [SubQuadrants.new, hE1, hE2]
        obtain ⟨b1, b2, b3, b4⟩ := SubQuadrants.seedBound q n' e0 m np (by omega)
        have hchild : ∀ c : BHTree α, c.treeBound ≤ hceil (q.len / 2) + 1 →
            BHTree.insertFuel n' c e m p = BHTree.insertFuel (hceil q.len) c e m p := by
          intro c hc
          have hcB : c.treeBound ≤ hceil q.len := le_trans hc (by omega)
          rw [ih n' (by omega) c e m p (le_trans hcB hn'),
            ih (hceil q.len) (by omega) c e m p hcB]
        have hs2 : SubQuadrants.insertWith (fun c => BHTree.insertFuel n' c e m p)
            (SubQuadrants.insertWith (fun c => BHTree.insertFuel n' c e0 m np)
              (SubQuadrants.new q) np) p =
            SubQuadrants.insertWith (fun c => BHTree.insertFuel (hceil q.len) c e m p)
            (SubQuadrants.insertWith (fun c => BHTree.insertFuel n' c e0 m np)
              (SubQuadrants.new q) np) p :=
          SubQuadrants.insertWith_congr _ _ (hchild _ b1) (hchild _ b2) (hchild _ b3)
            (hchild _ b4)
        rw [← hs1, ← hs2]
      · simp only [BHTree.insertFuel]
        rw [if_neg hq, if_neg hq]
    | internal q np nm nw ne sw se =>
      have h1 : max (max nw.treeBound ne.treeBound) (max sw.treeBound se.treeBound) + 1 ≤ n :=
        le_trans (le_of_eq rfl) hle
      obtain ⟨n', rfl⟩ : ∃ n', n = n' + 1 := ⟨n - 1, by omega⟩
      show BHTree.insertFuel (n' + 1) (BHTree.internal q np nm nw ne sw se) e m p =
        BHTree.insertFuel
          (max (max nw.treeBound ne.treeBound) (max sw.treeBound se.treeBound) + 1)
          (BHTree.internal q np nm nw ne sw se) e m p
      have hchild : ∀ c : BHTree α,
          c.treeBound ≤ max (max nw.treeBound ne.treeBound) (max sw.treeBound se.treeBound) →
          BHTree.insertFuel n' c e m p =
            BHTree.insertFuel
              (max (max nw.treeBound ne.treeBound) (max sw.treeBound se.treeBound)) c e m p := by
        intro c hc
        rw [ih n' (by omega) c e m p (by omega),
          ih (max (max nw.treeBound ne.treeBound) (max sw.treeBound se.treeBound))
            (by omega) c e m p hc]
      have hW : SubQuadrants.insertWith (fun c => BHTree.insertFuel n' c e m p)
          ⟨nw, ne, sw, se⟩ p =
          SubQuadrants.insertWith
            (fun c => BHTree.insertFuel
              (max (max nw.treeBound ne.treeBound) (max sw.treeBound se.treeBound)) c e m p)
            ⟨nw, ne, sw, se⟩ p :=
        SubQuadrants.insertWith_congr _ _
          (hchild _ (by simp [le_max_iff]))
          (hchild _ (by simp [le_max_iff]))
          (hchild _ (by simp [le_max_iff]))
          (hchild _ (by simp [le_max_iff]))
      simp only [BHTree.insertFuel]
      rw [hW]

end FuelLemmas

/-
Geometry of the subdivision (claim C5): covering for quadtree.rs's closed
`contains`, and the exactly-one-child property for bhtree.rs's half-open
`contains`.
-/

section GeometryLemmas

variable {α : Type} [LinearOrderedField α]

theorem Quadrant.cover (q : Quadrant α) (p : Vec2 α) (h : 0 < q.len) :
    q.contains p ↔
      (q.subquad .NW).contains p ∨ (q.subquad .NE).contains p ∨
      (q.subquad .SW).contains p ∨ (q.subquad .SE).contains p := by
  simp only [Quadrant.contains, Quadrant.subquad, Quadrant.new]
  constructor
  · rintro ⟨h1, h2, h3, h4⟩
    rcases le_total p.x q.center.x with hx | hx <;> rcases le_total p.y q.center.y with hy | hy
    · exact Or.inr (Or.inr (Or.inl ⟨by linarith, by linarith, by linarith, by linarith⟩))
    · exact Or.inl ⟨by linarith, by linarith, by linarith, by linarith⟩
    · exact Or.inr (Or.inr (Or.inr ⟨by linarith, by linarith, by linarith, by linarith⟩))
    · exact Or.inr (Or.inl ⟨by linarith, by linarith, by linarith, by linarith⟩)
  · rintro (⟨a1, a2, a3, a4⟩ | ⟨a1, a2, a3, a4⟩ | ⟨a1, a2, a3, a4⟩ | ⟨a1, a2, a3, a4⟩) <;>
      exact ⟨by linarith, by linarith, by linarith, by linarith⟩

theorem QuadB.uniqueChild (q : QuadB α) (x y : α) (h : q.strictlyInside x y) :
    ∃! c : Corner, (q.subquad c).contains x y := by
  obtain ⟨h1, h2⟩ := h
  rw [abs_lt] at h1 h2
  obtain ⟨h1a, h1b⟩ := h1
  obtain ⟨h2a, h2b⟩ := h2
  rcases lt_or_le x q.center.x with hx | hx <;> rcases lt_or_le y q.center.y with hy | hy
  · refine ⟨Corner.SW, ?_, ?_⟩
    · simp only [QuadB.subquad, QuadB.contains]
      refine ⟨by linarith, by linarith, by linarith, by linarith⟩
    · rintro c hc
      cases c with
      | NW => exfalso; simp only [QuadB.subquad, QuadB.contains] at hc; linarith [hc.2.2.1]
      | NE => exfalso; simp only [QuadB.subquad, QuadB.contains] at hc; linarith [hc.1]
      | SW => rfl
      | SE => exfalso; simp only [QuadB.subquad, QuadB.contains] at hc; linarith [hc.1]
  · refine ⟨Corner.NW, ?_, ?_⟩
    · simp only [QuadB.subquad, QuadB.contains]
      refine ⟨by linarith, by linarith, by linarith, by linarith⟩
    · rintro c hc
      cases c with
      | NW => rfl
      | NE => exfalso; simp only [QuadB.subquad, QuadB.contains] at hc; linarith [hc.1]
      | SW => exfalso; simp only [QuadB.subquad, QuadB.contains] at hc; linarith [hc.2.2.2]
      | SE => exfalso; simp only [QuadB.subquad, QuadB.contains] at hc; linarith [hc.1]
  · refine ⟨Corner.SE, ?_, ?_⟩
    · simp only [QuadB.subquad, QuadB.contains]
      refine ⟨by linarith, by linarith, by linarith, by linarith⟩
    · rintro c hc
      cases c with
      | NW => exfalso; simp only [QuadB.subquad, QuadB.contains] at hc; linarith [hc.2.1]
      | NE => exfalso; simp only [QuadB.subquad, QuadB.contains] at hc; linarith [hc.2.2.1]
      | SW => exfalso; simp only [QuadB.subquad, QuadB.contains] at hc; linarith [hc.2.1]
      | SE => rfl
  · refine ⟨Corner.NE, ?_, ?_⟩
    · simp only [QuadB.subquad, QuadB.contains]
      refine ⟨by linarith, by linarith, by linarith, by linarith⟩
    · rintro c hc
      cases c with
      | NW => exfalso; simp only [QuadB.subquad, QuadB.contains] at hc; linarith [hc.2.1]
      | NE => rfl
      | SW => exfalso; simp only [QuadB.subquad, QuadB.contains] at hc; linarith [hc.2.1]
      | SE => exfalso; simp only [QuadB.subquad, QuadB.contains] at hc; linarith [hc.2.2.2]

end GeometryLemmas

/-
Force-kernel lemmas over ℝ (claims C2, C3, C7).
-/

theorem Vec2.lengthSq_nonneg (v : Vec2 ℝ) : 0 ≤ v.lengthSq := by
  unfold Vec2.lengthSq
  have hx := mul_self_nonneg v.x
  have hy := mul_self_nonneg v.y
  linarith

theorem Vec2.sq_length (v : Vec2 ℝ) : v.length ^ 2 = v.lengthSq :=
  Real.sq_sqrt (Vec2.lengthSq_nonneg v)

theorem Vec2.sub_ne_zero_of_ne {a b : Vec2 ℝ} (h : a ≠ b) : a - b ≠ 0 := by
  intro h0
  rw [Vec2.eq_iff] at h0
  simp only [Vec2.sub_x, Vec2.sub_y, Vec2.zero_x, Vec2.zero_y] at h0
  exact h (Vec2.ext2 (by linarith [h0.1]) (by linarith [h0.2]))

theorem Vec2.lengthSq_pos {v : Vec2 ℝ} (h : v ≠ 0) : 0 < v.lengthSq := by
  rcases (Vec2.lengthSq_nonneg v).eq_or_lt with h0 | h0
  · exfalso
    have hx : v.x * v.x ≥ 0 := mul_self_nonneg _
    have hy : v.y * v.y ≥ 0 := mul_self_nonneg _
    have hls : v.x * v.x + v.y * v.y = 0 := by
      simpa [Vec2.lengthSq] using h0.symm
    exact h (Vec2.ext2 (mul_self_eq_zero.mp (by linarith)) (mul_self_eq_zero.mp (by linarith)))
  · exact h0

theorem Vec2.length_pos {v : Vec2 ℝ} (h : v ≠ 0) : 0 < v.length :=
  Real.sqrt_pos.mpr (Vec2.lengthSq_pos h)

theorem Vec3.lengthSq_nonneg3 (v : Vec3) : 0 ≤ v.lengthSq := by
  unfold Vec3.lengthSq
  have hx := mul_self_nonneg v.x
  have hy := mul_self_nonneg v.y
  have hz := mul_self_nonneg v.z
  linarith

theorem Vec3.sq_length3 (v : Vec3) : v.length ^ 2 = v.lengthSq :=
  Real.sq_sqrt (Vec3.lengthSq_nonneg3 v)

theorem Vec3.sub_ne_zero_of_ne3 {a b : Vec3} (h : a ≠ b) : a - b ≠ 0 := by
  intro h0
  rw [Vec3.eq_iff3] at h0
  simp only [Vec3.sub_x3, Vec3.sub_y3, Vec3.sub_z, Vec3.zero_x3, Vec3.zero_y3, Vec3.zero_z] at h0
  exact h (Vec3.ext3 (by linarith [h0.1]) (by linarith [h0.2.1]) (by linarith [h0.2.2]))

theorem Vec3.lengthSq_pos3 {v : Vec3} (h : v ≠ 0) : 0 < v.lengthSq := by
  rcases (Vec3.lengthSq_nonneg3 v).eq_or_lt with h0 | h0
  · exfalso
    have hx : v.x * v.x ≥ 0 := mul_self_nonneg _
    have hy : v.y * v.y ≥ 0 := mul_self_nonneg _
    have hz : v.z * v.z ≥ 0 := mul_self_nonneg _
    have hls : v.x * v.x + v.y * v.y + v.z * v.z = 0 := by
      simpa [Vec3.lengthSq] using h0.symm
    exact h (Vec3.ext3 (mul_self_eq_zero.mp (by linarith)) (mul_self_eq_zero.mp (by linarith))
      (mul_self_eq_zero.mp (by linarith)))
  · exact h0

theorem Vec3.length_pos3 {v : Vec3} (h : v ≠ 0) : 0 < v.length :=
  Real.sqrt_pos.mpr (Vec3.lengthSq_pos3 h)

/-- The quadtree.rs kernel in spec form: away from the clamp (distance at least
1) the contribution is `(m1 * m2 / dist^2)` in the unit direction of
`node.pos - pos`. -/
theorem approximateForce_kernel (npos pos : Vec2 ℝ) (nmass mass : ℝ)
    (hne : npos ≠ pos) (hfar : 1 ≤ (npos - pos).lengthSq) :
    approximateForce npos nmass pos mass =
      (mass * nmass / (npos - pos).length ^ 2) •
        ((1 / (npos - pos).length) • (npos - pos)) := by
  have hd : npos - pos ≠ 0 := Vec2.sub_ne_zero_of_ne hne
  simp only [approximateForce, Vec2.normalizeOrZero, if_neg hd, max_eq_left hfar,
    Vec2.sq_length]

/-- The idktree.rs kernel in closed form: for distinct positions,
`calc_accel m2 t1 t2 dt g = (g * m2 * dt / dist^2) • (t2 - t1)`, a contribution
of magnitude `g * m2 * dt / dist` — inverse-linear in the distance and carrying
the timestep factor `dt`. -/
theorem calcAccel_kernel (m2 : ℝ) (t1 t2 : Vec3) (dt g : ℝ) (hne : t2 ≠ t1) :
    calcAccel m2 t1 t2 dt g = ((g * m2 * dt) / (t2 - t1).lengthSq) • (t2 - t1) := by
  have hd : t2 - t1 ≠ 0 := Vec3.sub_ne_zero_of_ne3 hne
  have hl : 0 < (t2 - t1).length := Vec3.length_pos3 hd
  have hln : (t2 - t1).length ≠ 0 := ne_of_gt hl
  have hsq : (t2 - t1).length * (t2 - t1).length = (t2 - t1).lengthSq := by
    rw [← pow_two]; exact Vec3.sq_length3 _
  simp only [calcAccel, Vec3.normalize, Vec3.smul_smul]
  congr 1
  rw [← hsq]
  field_simp

/-
Claim theorems.
-/

/-- Claim C1 (code_bug evaluation): inserting entity 0 with mass 1 at
(-1/2, 1/2) and then entity 1 with mass 3 at (1/2, 1/2) into a fresh tree over
the quadrant centered at the origin with side length 2 subdivides the root;
the re-insert of the existing entity 0 passes `body` — the NEW body — so the
NW leaf holding entity 0 records mass 3 (quadtree.rs line 120), although
entity 0 was inserted with mass 1. The NW node's aggregated mass (3) is not
the sum of the masses of the bodies in its subtree (1), and the Leaf aggregate
differs from its single body's mass, refuting the claimed invariant; the root
aggregate (mass 4, center of mass (1/4, 1/2)) is still correct. -/
theorem c1_reinsert_uses_new_mass :
    BHTree.insert
      (BHTree.insert (BHTree.new (Quadrant.new (⟨0, 0⟩ : Vec2 ℚ) 2)) 0 1 ⟨-1/2, 1/2⟩)
      1 3 ⟨1/2, 1/2⟩ =
    BHTree.internal (Quadrant.new ⟨0, 0⟩ 2) ⟨1/4, 1/2⟩ 4
      (.external (Quadrant.new ⟨-1/2, 1/2⟩ 1) ⟨-1/2, 1/2⟩ 3 0)
      (.external (Quadrant.new ⟨1/2, 1/2⟩ 1) ⟨1/2, 1/2⟩ 3 1)
      (.empty (Quadrant.new ⟨-1/2, -1/2⟩ 1))
      (.empty (Quadrant.new ⟨1/2, -1/2⟩ 1)) := by
  norm_num [BHTree.new, BHTree.insert, BHTree.insertFuel, BHTree.treeBound,
    SubQuadrants.insertWith, SubQuadrants.new, Quadrant.new, Quadrant.subquad,
    Quadrant.contains, BHTree.quad, Node.addPos, MIN_QUADRANT_LENGTH, hceil]

/-- Claim C2 (counterexample): the idktree.rs force kernel carries the
timestep factor dt inside the tree query: at m2 = 1, t1 = origin,
t2 = (2,0,0), g = 1, doubling dt from 1 to 2 doubles the returned contribution
from (1/2, 0, 0) to (1, 0, 0); the contribution is also g*m2/dist = 1/2 at
distance 2, not the claimed G*m1*m2/dist^2 = 1/4 law. -/
theorem c2_calc_accel_carries_dt :
    calcAccel 1 ⟨0, 0, 0⟩ ⟨2, 0, 0⟩ 2 1 = ⟨1, 0, 0⟩ ∧
    calcAccel 1 ⟨0, 0, 0⟩ ⟨2, 0, 0⟩ 1 1 = ⟨1/2, 0, 0⟩ ∧
    calcAccel 1 ⟨0, 0, 0⟩ ⟨2, 0, 0⟩ 2 1 ≠ calcAccel 1 ⟨0, 0, 0⟩ ⟨2, 0, 0⟩ 1 1 := by
  have h4 : Real.sqrt 4 = 2 := by
    rw [show (4 : ℝ) = 2 ^ 2 by norm_num, Real.sqrt_sq (by norm_num : (0 : ℝ) ≤ 2)]
  have e1 : calcAccel 1 ⟨0, 0, 0⟩ ⟨2, 0, 0⟩ 2 1 = ⟨1, 0, 0⟩ := by
    norm_num [calcAccel, Vec3.length, Vec3.lengthSq, Vec3.normalize, Vec3.eq_iff3, h4,
      Vec3.smul_smul]
  have e2 : calcAccel 1 ⟨0, 0, 0⟩ ⟨2, 0, 0⟩ 1 1 = ⟨1/2, 0, 0⟩ := by
    norm_num [calcAccel, Vec3.length, Vec3.lengthSq, Vec3.normalize, Vec3.eq_iff3, h4,
      Vec3.smul_smul]
  refine ⟨e1, e2, ?_⟩
  rw [e1, e2]
  intro h
  rw [Vec3.eq_iff3] at h
  norm_num at h

/-- Claim C2 (amended): away from the clamp (distance at least 1) and for
distinct positions, the quadtree.rs kernel contributes magnitude
m1*m2/dist^2 (G fixed at 1) in the unit direction of p2 - p1 with no dt
factor, while the idktree.rs kernel contributes
(g*m2*dt/dist^2) * (t2 - t1), i.e. magnitude g*m2*dt/dist — inverse-linear
in the distance, acceleration-based, and carrying the timestep factor dt
inside the tree. -/
theorem c2_kernels_characterized (npos pos : Vec2 ℝ) (nmass mass m2 : ℝ)
    (t1 t2 : Vec3) (dt g : ℝ) (h1 : npos ≠ pos) (h2 : 1 ≤ (npos - pos).lengthSq)
    (h3 : t2 ≠ t1) :
    approximateForce npos nmass pos mass =
      (mass * nmass / (npos - pos).length ^ 2) •
        ((1 / (npos - pos).length) • (npos - pos)) ∧
    calcAccel m2 t1 t2 dt g = ((g * m2 * dt) / (t2 - t1).lengthSq) • (t2 - t1) :=
  ⟨approximateForce_kernel npos pos nmass mass h1 h2, calcAccel_kernel m2 t1 t2 dt g h3⟩

/-- Witness for C2 (amended) at node position (2,0), aggregate mass 3, query
at the origin with mass 5; and kernel inputs m2 = 1, t1 = origin,
t2 = (2,0,0), dt = 7, g = 1. -/
theorem c2_kernels_characterized_witness :
    ((⟨2, 0⟩ : Vec2 ℝ) ≠ ⟨0, 0⟩ ∧ 1 ≤ ((⟨2, 0⟩ : Vec2 ℝ) - ⟨0, 0⟩).lengthSq ∧
      (⟨2, 0, 0⟩ : Vec3) ≠ ⟨0, 0, 0⟩) ∧
    (approximateForce ⟨2, 0⟩ 3 ⟨0, 0⟩ 5 =
      (5 * 3 / ((⟨2, 0⟩ : Vec2 ℝ) - ⟨0, 0⟩).length ^ 2) •
        ((1 / ((⟨2, 0⟩ : Vec2 ℝ) - ⟨0, 0⟩).length) • ((⟨2, 0⟩ : Vec2 ℝ) - ⟨0, 0⟩)) ∧
    calcAccel 1 ⟨0, 0, 0⟩ ⟨2, 0, 0⟩ 7 1 =
      ((1 * 1 * 7) / ((⟨2, 0, 0⟩ : Vec3) - ⟨0, 0, 0⟩).lengthSq) •
        ((⟨2, 0, 0⟩ : Vec3) - ⟨0, 0, 0⟩)) :=
  ⟨⟨by norm_num [Vec2.eq_iff], by norm_num [Vec2.lengthSq], by norm_num [Vec3.eq_iff3]⟩,
    c2_kernels_characterized ⟨2, 0⟩ ⟨0, 0⟩ 3 5 1 ⟨0, 0, 0⟩ ⟨2, 0, 0⟩ 7 1
      (by norm_num [Vec2.eq_iff]) (by norm_num [Vec2.lengthSq]) (by norm_num [Vec3.eq_iff3])⟩

/-- Claim C3 (counterexample): two bodies at distance 1/10 inside a root
quadrant of side 2/5 (at most MIN_QUADRANT_LENGTH, so no subdivision): the
second insert is folded into the first body's External leaf (quadtree.rs
line 125 with the subdivision of lines 116-124 skipped). The force query for
the folded entity 1 then reaches that leaf, whose entity (0) differs from the
query entity, and uses the leaf's aggregated mass — which includes entity 1's
own mass. Keeping everything fixed except entity 1's own inserted mass
(1 versus 3) changes the force returned for entity 1 from (-2, 0) to (-4, 0)
(the kernel multiplier node.mass is 2 = 1+1 resp. 4 = 1+3), so the query
includes a contribution from the query body's own mass. -/
theorem c3_folded_leaf_includes_own_mass :
    BHTree.computeForce
      (BHTree.insert
        (BHTree.insert (BHTree.new (Quadrant.new (⟨0, 0⟩ : Vec2 ℝ) (2/5))) 0 1 ⟨0, 0⟩)
        1 1 ⟨1/10, 0⟩) 1 1 ⟨1/10, 0⟩ = ⟨-2, 0⟩ ∧
    BHTree.computeForce
      (BHTree.insert
        (BHTree.insert (BHTree.new (Quadrant.new (⟨0, 0⟩ : Vec2 ℝ) (2/5))) 0 1 ⟨0, 0⟩)
        1 3 ⟨1/10, 0⟩) 1 1 ⟨1/10, 0⟩ = ⟨-4, 0⟩ ∧
    (⟨-2, 0⟩ : Vec2 ℝ) ≠ ⟨-4, 0⟩ := by
  have hceil1 : (⌈(2 : ℝ) * (2/5)⌉ : ℤ) = 1 := by
    rw [Int.ceil_eq_iff]
    norm_num
  have ht1 : BHTree.insert
      (BHTree.insert (BHTree.new (Quadrant.new (⟨0, 0⟩ : Vec2 ℝ) (2/5))) 0 1 ⟨0, 0⟩)
      1 1 ⟨1/10, 0⟩ =
      .external (Quadrant.new ⟨0, 0⟩ (2/5)) ⟨1/20, 0⟩ 2 0 := by
    norm_num [BHTree.new, BHTree.insert, BHTree.insertFuel, BHTree.treeBound,
      Quadrant.new, Node.addPos, MIN_QUADRANT_LENGTH, hceil, hceil1, Vec2.eq_iff]
  have ht3 : BHTree.insert
      (BHTree.insert (BHTree.new (Quadrant.new (⟨0, 0⟩ : Vec2 ℝ) (2/5))) 0 1 ⟨0, 0⟩)
      1 3 ⟨1/10, 0⟩ =
      .external (Quadrant.new ⟨0, 0⟩ (2/5)) ⟨3/40, 0⟩ 4 0 := by
    norm_num [BHTree.new, BHTree.insert, BHTree.insertFuel, BHTree.treeBound,
      Quadrant.new, Node.addPos, MIN_QUADRANT_LENGTH, hceil, hceil1, Vec2.eq_iff]
  have hs20 : Real.sqrt (1/400) = 1/20 := by
    rw [show (1/400 : ℝ) = (1/20) ^ 2 by norm_num,
      Real.sqrt_sq (by norm_num : (0 : ℝ) ≤ 1/20)]
  have hs40 : Real.sqrt (1/1600) = 1/40 := by
    rw [show (1/1600 : ℝ) = (1/40) ^ 2 by norm_num,
      Real.sqrt_sq (by norm_num : (0 : ℝ) ≤ 1/40)]
  refine ⟨?_, ?_, ?_⟩
  · rw [ht1]
    norm_num [BHTree.computeForce, approximateForce, Vec2.normalizeOrZero, Vec2.length,
      Vec2.lengthSq, Vec2.eq_iff, Quadrant.new, hs20]
  · rw [ht3]
    norm_num [BHTree.computeForce, approximateForce, Vec2.normalizeOrZero, Vec2.length,
      Vec2.lengthSq, Vec2.eq_iff, Quadrant.new, hs40]
  · intro h
    rw [Vec2.eq_iff] at h
    norm_num at h

/-- Claim C3 (amended): self-exclusion is by identity, not by position: a
force query against an External leaf holding the query body's own entity
returns zero, whatever the stored position, aggregated mass, or query
position. (Bodies folded into another entity's leaf below the minimum
quadrant size instead contribute through the leaf's aggregate, as the
counterexample shows.) -/
theorem c3_leaf_exclusion_by_identity (q : Quadrant ℝ) (np : Vec2 ℝ) (nm : ℝ)
    (e : ℕ) (m : ℝ) (p : Vec2 ℝ) :
    BHTree.computeForce (BHTree.external q np nm e) e m p = 0 := by
  simp [BHTree.computeForce]

/-- Claim C4 (code_bug evaluation): in bhtree.rs, the position (1, 0) inside
the parent quad centered at the origin with size 2 lies in none of the four
half-open child quads (its x coordinate equals every candidate's upper
bound), and Node::subdivide_and_insert takes the `panic!` branch (modelled by
`none`), aborting instead of applying a deterministic non-aborting policy. -/
theorem c4_bhtree_subdivide_aborts :
    (¬ ((⟨⟨0, 0⟩, 2⟩ : QuadB ℚ).subquad .NW).contains 1 0) ∧
    (¬ ((⟨⟨0, 0⟩, 2⟩ : QuadB ℚ).subquad .NE).contains 1 0) ∧
    (¬ ((⟨⟨0, 0⟩, 2⟩ : QuadB ℚ).subquad .SW).contains 1 0) ∧
    (¬ ((⟨⟨0, 0⟩, 2⟩ : QuadB ℚ).subquad .SE).contains 1 0) ∧
    subdivideAndInsertChoice (⟨⟨0, 0⟩, 2⟩ : QuadB ℚ) 1 0 = none := by
  norm_num [QuadB.subquad, QuadB.contains, subdivideAndInsertChoice]

/-- Claim C5 (counterexample): for quadtree.rs's closed `contains`, the point
(0, 1/2) is strictly inside the quadrant centered at the origin with side
length 2, yet both the NW and the NE child contain it — so it is not the case
that exactly one of the four children contains every strictly interior
point. -/
theorem c5_interior_point_in_two_children :
    (⟨⟨0, 0⟩, 2⟩ : Quadrant ℚ).strictlyInside ⟨0, 1/2⟩ ∧
    ((⟨⟨0, 0⟩, 2⟩ : Quadrant ℚ).subquad .NW).contains ⟨0, 1/2⟩ ∧
    ((⟨⟨0, 0⟩, 2⟩ : Quadrant ℚ).subquad .NE).contains ⟨0, 1/2⟩ := by
  norm_num [Quadrant.strictlyInside, Quadrant.subquad, Quadrant.new, Quadrant.contains,
    abs_lt]

/-- Claim C5 (amended): for quadtree.rs's closed `contains` the four children
of a positive-side quadrant exactly cover it (a point is in the parent iff it
is in some child, so there is no gap and at least one child contains every
interior point, with internal mid-line points in more than one child); for
bhtree.rs's half-open `contains`, exactly one child contains each strictly
interior point. -/
theorem c5_tiling_amended (q : Quadrant ℚ) (p : Vec2 ℚ) (qb : QuadB ℚ) (x y : ℚ)
    (hq : 0 < q.len) (hb : qb.strictlyInside x y) :
    (q.contains p ↔
      (q.subquad .NW).contains p ∨ (q.subquad .NE).contains p ∨
      (q.subquad .SW).contains p ∨ (q.subquad .SE).contains p) ∧
    (∃! c : Corner, (qb.subquad c).contains x y) :=
  ⟨Quadrant.cover q p hq, QuadB.uniqueChild qb x y hb⟩

/-- Witness for C5 (amended) at the quadrant centered at the origin with side
length 2 and the interior point (1/4, 1/4). -/
theorem c5_tiling_amended_witness :
    (0 < (⟨⟨0, 0⟩, 2⟩ : Quadrant ℚ).len ∧
      (⟨⟨0, 0⟩, 2⟩ : QuadB ℚ).strictlyInside (1/4) (1/4)) ∧
    (((⟨⟨0, 0⟩, 2⟩ : Quadrant ℚ).contains ⟨1/4, 1/4⟩ ↔
      ((⟨⟨0, 0⟩, 2⟩ : Quadrant ℚ).subquad .NW).contains ⟨1/4, 1/4⟩ ∨
      ((⟨⟨0, 0⟩, 2⟩ : Quadrant ℚ).subquad .NE).contains ⟨1/4, 1/4⟩ ∨
      ((⟨⟨0, 0⟩, 2⟩ : Quadrant ℚ).subquad .SW).contains ⟨1/4, 1/4⟩ ∨
      ((⟨⟨0, 0⟩, 2⟩ : Quadrant ℚ).subquad .SE).contains ⟨1/4, 1/4⟩) ∧
    (∃! c : Corner, ((⟨⟨0, 0⟩, 2⟩ : QuadB ℚ).subquad c).contains (1/4) (1/4))) :=
  ⟨⟨by norm_num, by norm_num [QuadB.strictlyInside, abs_lt]⟩,
    c5_tiling_amended ⟨⟨0, 0⟩, 2⟩ ⟨1/4, 1/4⟩ ⟨⟨0, 0⟩, 2⟩ (1/4) (1/4) (by norm_num)
      (by norm_num [QuadB.strictlyInside, abs_lt])⟩

/-- Claim C6: for every nonempty list of bodies with positive masses inserted
into a fresh tree, the root aggregated mass equals the sum of the inserted
masses and the root aggregated center of mass equals the mass-weighted mean
of the inserted positions, and both are identical for any permutation of the
insertion order (exact rational arithmetic; every insert unconditionally ends
in `current_node.add(position, body.mass)` at the root, quadtree.rs lines
113, 125). -/
theorem c6_root_aggregates_order_independent (q : Quadrant ℚ)
    (bs bs' : List (ℕ × ℚ × Vec2 ℚ)) (hne : bs ≠ [])
    (hpos : ∀ b ∈ bs, 0 < b.2.1) (hperm : bs.Perm bs') :
    ((BHTree.new q).insertList bs).rootMass = massSum bs ∧
    ((BHTree.new q).insertList bs).rootCom = (1 / massSum bs) • weightedSum bs ∧
    ((BHTree.new q).insertList bs').rootMass = ((BHTree.new q).insertList bs).rootMass ∧
    ((BHTree.new q).insertList bs').rootCom = ((BHTree.new q).insertList bs).rootCom := by
  have main : ∀ cs : List (ℕ × ℚ × Vec2 ℚ), cs ≠ [] → (∀ b ∈ cs, 0 < b.2.1) →
      ((BHTree.new q).insertList cs).rootMass = massSum cs ∧
      ((BHTree.new q).insertList cs).rootCom = (1 / massSum cs) • weightedSum cs := by
    intro cs hcne hcpos
    cases cs with
    | nil => exact absurd rfl hcne
    | cons b rest =>
      have hb : 0 < b.2.1 := hcpos b (by simp)
      have hrest : ∀ x ∈ rest, 0 < x.2.1 := fun x hx => hcpos x (by simp [hx])
      have hstep : (BHTree.new q).insertList (b :: rest) =
          (BHTree.external q b.2.2 b.2.1 b.1).insertList rest := by
        have hfirst : (BHTree.new q).insert b.1 b.2.1 b.2.2 =
            BHTree.external q b.2.2 b.2.1 b.1 := BHTree.insert_empty q b.1 b.2.1 b.2.2
        simp [BHTree.insertList, hfirst]
      obtain ⟨hM, hC⟩ := BHTree.insertList_aggregates rest
        (BHTree.external q b.2.2 b.2.1 b.1) (by simp [BHTree.hasNode])
        (by simpa [BHTree.rootMass] using hb) hrest
      constructor
      · rw [hstep, hM, massSum_cons]
        simp [BHTree.rootMass]
      · rw [hstep, hC, massSum_cons, weightedSum_cons]
        simp [BHTree.rootMass, BHTree.rootCom]
  obtain ⟨hM, hC⟩ := main bs hne hpos
  have hne' : bs' ≠ [] := by
    intro h
    exact hne (List.Perm.eq_nil (h ▸ hperm))
  have hpos' : ∀ b ∈ bs', 0 < b.2.1 := fun b hb => hpos b (hperm.mem_iff.mpr hb)
  obtain ⟨hM', hC'⟩ := main bs' hne' hpos'
  have hmass : massSum bs' = massSum bs :=
    (List.Perm.sum_eq (List.Perm.map _ hperm)).symm
  have hweight : weightedSum bs' = weightedSum bs := by
    refine Vec2.ext2 ?_ ?_
    · unfold weightedSum
      rw [Vec2.sum_x, Vec2.sum_x, List.map_map, List.map_map]
      exact (List.Perm.sum_eq (List.Perm.map _ hperm)).symm
    · unfold weightedSum
      rw [Vec2.sum_y, Vec2.sum_y, List.map_map, List.map_map]
      exact (List.Perm.sum_eq (List.Perm.map _ hperm)).symm
  refine ⟨hM, hC, ?_, ?_⟩
  · rw [hM, hM', hmass]
  · rw [hC, hC', hmass, hweight]

/-- Witness for C6: two bodies of masses 1 and 3 at (0, 0) and (2, 2),
inserted in both orders into a fresh tree over the quadrant centered at the
origin with side length 8. -/
theorem c6_root_aggregates_order_independent_witness :
    (([((0 : ℕ), (1 : ℚ), (⟨0, 0⟩ : Vec2 ℚ)), (1, 3, ⟨2, 2⟩)] :
        List (ℕ × ℚ × Vec2 ℚ)) ≠ [] ∧
      (∀ b ∈ ([((0 : ℕ), (1 : ℚ), (⟨0, 0⟩ : Vec2 ℚ)), (1, 3, ⟨2, 2⟩)] :
        List (ℕ × ℚ × Vec2 ℚ)), 0 < b.2.1) ∧
      ([((0 : ℕ), (1 : ℚ), (⟨0, 0⟩ : Vec2 ℚ)), (1, 3, ⟨2, 2⟩)] :
        List (ℕ × ℚ × Vec2 ℚ)).Perm [(1, 3, ⟨2, 2⟩), (0, 1, ⟨0, 0⟩)]) ∧
    (((BHTree.new (Quadrant.new (⟨0, 0⟩ : Vec2 ℚ) 8)).insertList
        ([(0, 1, ⟨0, 0⟩), (1, 3, ⟨2, 2⟩)] : List (ℕ × ℚ × Vec2 ℚ))).rootMass =
      massSum ([(0, 1, ⟨0, 0⟩), (1, 3, ⟨2, 2⟩)] : List (ℕ × ℚ × Vec2 ℚ)) ∧
    ((BHTree.new (Quadrant.new (⟨0, 0⟩ : Vec2 ℚ) 8)).insertList
        ([(0, 1, ⟨0, 0⟩), (1, 3, ⟨2, 2⟩)] : List (ℕ × ℚ × Vec2 ℚ))).rootCom =
      (1 / massSum ([(0, 1, ⟨0, 0⟩), (1, 3, ⟨2, 2⟩)] : List (ℕ × ℚ × Vec2 ℚ))) •
        weightedSum ([(0, 1, ⟨0, 0⟩), (1, 3, ⟨2, 2⟩)] : List (ℕ × ℚ × Vec2 ℚ)) ∧
    ((BHTree.new (Quadrant.new (⟨0, 0⟩ : Vec2 ℚ) 8)).insertList
        ([(1, 3, ⟨2, 2⟩), (0, 1, ⟨0, 0⟩)] : List (ℕ × ℚ × Vec2 ℚ))).rootMass =
      ((BHTree.new (Quadrant.new (⟨0, 0⟩ : Vec2 ℚ) 8)).insertList
        ([(0, 1, ⟨0, 0⟩), (1, 3, ⟨2, 2⟩)] : List (ℕ × ℚ × Vec2 ℚ))).rootMass ∧
    ((BHTree.new (Quadrant.new (⟨0, 0⟩ : Vec2 ℚ) 8)).insertList
        ([(1, 3, ⟨2, 2⟩), (0, 1, ⟨0, 0⟩)] : List (ℕ × ℚ × Vec2 ℚ))).rootCom =
      ((BHTree.new (Quadrant.new (⟨0, 0⟩ : Vec2 ℚ) 8)).insertList
        ([(0, 1, ⟨0, 0⟩), (1, 3, ⟨2, 2⟩)] : List (ℕ × ℚ × Vec2 ℚ))).rootCom) :=
  ⟨⟨by simp, by norm_num, List.Perm.swap _ _ _⟩,
    c6_root_aggregates_order_independent (Quadrant.new (⟨0, 0⟩ : Vec2 ℚ) 8)
      ([(0, 1, ⟨0, 0⟩), (1, 3, ⟨2, 2⟩)] : List (ℕ × ℚ × Vec2 ℚ))
      ([(1, 3, ⟨2, 2⟩), (0, 1, ⟨0, 0⟩)] : List (ℕ × ℚ × Vec2 ℚ))
      (by simp) (by norm_num) (List.Perm.swap _ _ _)⟩

/-- Claim C7 (code_bug evaluation): at coincident positions the idktree.rs
kernel's divisor, the magnitude of t2 - t1, is zero, and calc_accel divides
by it (m2 / mag) and normalizes the zero vector; the instrumented kernel
reports the division by zero (`none`), where the f32 code would produce
Inf/NaN components instead of a finite vector. -/
theorem c7_calc_accel_divides_by_zero :
    ((⟨0, 0, 0⟩ : Vec3) - ⟨0, 0, 0⟩).length = 0 ∧
    calcAccelChecked 1 ⟨0, 0, 0⟩ ⟨0, 0, 0⟩ 1 1 = none := by
  have hl : ((⟨0, 0, 0⟩ : Vec3) - ⟨0, 0, 0⟩).length = 0 := by
    norm_num [Vec3.length, Vec3.lengthSq, Real.sqrt_zero]
  exact ⟨hl, by simp [calcAccelChecked, hl]⟩

/-- Claim C8: BHTree::insert terminates with recursion depth bounded via the
minimum-quadrant-size guard: for any tree state and body, every recursion
fuel at or above `treeBound` — the tree depth plus the halving budget
`hceil len + 1`, which the guard `len > MIN_QUADRANT_LENGTH` (quadtree.rs
line 116) exhausts after finitely many halvings — produces the same result as
the canonical insert, so the recursion never needs more than the bounded
depth, including for duplicate and near-duplicate positions. -/
theorem c8_insert_fuel_bounded (t : BHTree ℚ) (e : ℕ) (m : ℚ) (p : Vec2 ℚ) (n : ℕ)
    (h : t.treeBound ≤ n) : BHTree.insertFuel n t e m p = t.insert e m p := by
  rw [BHTree.insert, BHTree.insertFuel_stable n t e m p h,
    BHTree.insertFuel_stable (t.treeBound + 1) t e m p (by omega)]

/-- Witness for C8 on the empty tree over the unit quadrant with fuel 10. -/
theorem c8_insert_fuel_bounded_witness :
    (BHTree.empty (Quadrant.new (⟨0, 0⟩ : Vec2 ℚ) 1)).treeBound ≤ 10 ∧
    BHTree.insertFuel 10 (BHTree.empty (Quadrant.new (⟨0, 0⟩ : Vec2 ℚ) 1)) 1 2 ⟨1/4, 1/4⟩ =
      (BHTree.empty (Quadrant.new (⟨0, 0⟩ : Vec2 ℚ) 1)).insert 1 2 ⟨1/4, 1/4⟩ :=
  ⟨by norm_num [BHTree.treeBound],
    c8_insert_fuel_bounded (BHTree.empty (Quadrant.new ⟨0, 0⟩ 1)) 1 2 ⟨1/4, 1/4⟩ 10
      (by norm_num [BHTree.treeBound])⟩

/-- Claim C9 (code_bug evaluation): no constructor validates its arguments:
Quadrant::new (quadtree.rs) stores a negative side length -1 unchanged,
Quad::new (idktree.rs) stores size -5 unchanged, and Quad::new_containing
(idktree.rs) yields size 0 for a single-point position list — none of them
rejects the construction, so no constructed-quadrant invariant
`side_length > 0` holds. -/
theorem c9_constructors_unvalidated :
    (Quadrant.new (⟨0, 0⟩ : Vec2 ℚ) (-1)).len = -1 ∧
    (QuadI.new (1 : ℚ) 2 (-5)).size = -5 ∧
    (QuadI.new_containing [(⟨3, 4⟩ : Vec2 ℚ)]).size = 0 := by
  refine ⟨rfl, rfl, ?_⟩
  norm_num [QuadI.new_containing, f32MAX, f32MIN, min_def, max_def]

/-- Claim C10: inserting into a subdivided (Internal) node a body whose
position is contained in none of the four child quadrants leaves the four
child subtrees structurally unchanged (SubQuadrants::insert drops the body
with a printed warning, quadtree.rs lines 183-193) and stores the body in no
node, yet the node still runs `current_node.add(position, body.mass)`
(line 113), folding the dropped body's mass and position into its
aggregate. -/
theorem c10_outside_child_aggregate_still_added (q : Quadrant ℚ) (np : Vec2 ℚ)
    (nm : ℚ) (nw ne sw se : BHTree ℚ) (e : ℕ) (m : ℚ) (p : Vec2 ℚ)
    (h1 : ¬ nw.quad.contains p) (h2 : ¬ ne.quad.contains p)
    (h3 : ¬ sw.quad.contains p) (h4 : ¬ se.quad.contains p) :
    (BHTree.internal q np nm nw ne sw se).insert e m p =
      BHTree.internal q (Node.addPos np nm p m) (nm + m) nw ne sw se := by
  simp [BHTree.insert, BHTree.insertFuel, SubQuadrants.insertWith, h1, h2, h3, h4]

/-- Witness for C10: a subdivided root over the quadrant centered at the
origin with side length 2 and the far-outside position (5, 5). -/
theorem c10_outside_child_aggregate_still_added_witness :
    ((¬ (BHTree.empty ((Quadrant.new (⟨0, 0⟩ : Vec2 ℚ) 2).subquad .NW)).quad.contains
        ⟨5, 5⟩) ∧
      (¬ (BHTree.empty ((Quadrant.new (⟨0, 0⟩ : Vec2 ℚ) 2).subquad .NE)).quad.contains
        ⟨5, 5⟩) ∧
      (¬ (BHTree.empty ((Quadrant.new (⟨0, 0⟩ : Vec2 ℚ) 2).subquad .SW)).quad.contains
        ⟨5, 5⟩) ∧
      (¬ (BHTree.empty ((Quadrant.new (⟨0, 0⟩ : Vec2 ℚ) 2).subquad .SE)).quad.contains
        ⟨5, 5⟩)) ∧
    (BHTree.internal (Quadrant.new (⟨0, 0⟩ : Vec2 ℚ) 2) ⟨0, 0⟩ 1
        (BHTree.empty ((Quadrant.new ⟨0, 0⟩ 2).subquad .NW))
        (BHTree.empty ((Quadrant.new ⟨0, 0⟩ 2).subquad .NE))
        (BHTree.empty ((Quadrant.new ⟨0, 0⟩ 2).subquad .SW))
        (BHTree.empty ((Quadrant.new ⟨0, 0⟩ 2).subquad .SE))).insert 7 2 ⟨5, 5⟩ =
      BHTree.internal (Quadrant.new ⟨0, 0⟩ 2) (Node.addPos ⟨0, 0⟩ 1 ⟨5, 5⟩ 2) (1 + 2)
        (BHTree.empty ((Quadrant.new ⟨0, 0⟩ 2).subquad .NW))
        (BHTree.empty ((Quadrant.new ⟨0, 0⟩ 2).subquad .NE))
        (BHTree.empty ((Quadrant.new ⟨0, 0⟩ 2).subquad .SW))
        (BHTree.empty ((Quadrant.new ⟨0, 0⟩ 2).subquad .SE)) :=
  ⟨⟨by norm_num [BHTree.quad, Quadrant.subquad, Quadrant.new, Quadrant.contains],
    by norm_num [BHTree.quad, Quadrant.subquad, Quadrant.new, Quadrant.contains],
    by norm_num [BHTree.quad, Quadrant.subquad, Quadrant.new, Quadrant.contains],
    by norm_num [BHTree.quad, Quadrant.subquad, Quadrant.new, Quadrant.contains]⟩,
    c10_outside_child_aggregate_still_added (Quadrant.new ⟨0, 0⟩ 2) ⟨0, 0⟩ 1 _ _ _ _ 7 2
      ⟨5, 5⟩
      (by norm_num [BHTree.quad, Quadrant.subquad, Quadrant.new, Quadrant.contains])
      (by norm_num [BHTree.quad, Quadrant.subquad, Quadrant.new, Quadrant.contains])
      (by norm_num [BHTree.quad, Quadrant.subquad, Quadrant.new, Quadrant.contains])
      (by norm_num [BHTree.quad, Quadrant.subquad, Quadrant.new, Quadrant.contains])⟩
